import Mathlib

/-!
Verification development for the raw-data conversion repository.

The repository is a collection of Python file-maintenance and image-preprocessing
scripts.  This file gives a shallow embedding of the parts of the code that the
stated claims are about, and proves (or refutes) each claim against that
embedding:

* `run_full_pipeline.py` — the orchestrator (`run_script`, the main loop,
  `write_step_log`, `write_report`): claims C1, C3, C7.
* `convert_tif_to_png.py` — per-file conversion and the batch loop: C2, C5.
* `delete_post_files.py` — substring-keyed file deletion: C2, C6.
* `consolidate_png_files.py`, `count_png_files.py`, `rename_folders.py` —
  folder-name class labels and the "heathy" spelling variant: C4, C9.
* `divide_images_generic.py` — 4x4 tiling of 128x128 images: C8.
* `flatten_crc_structure.py` — structure flattening with conflict-avoiding
  numbered rename: C10.

Modelling conventions: the filesystem is explicit data (lists of directories or
files), `subprocess` and PIL are oracles passed in as parameters, wall-clock
time is a natural number of milliseconds threaded through as state (the real
`datetime.now` is modelled as reading this monotonically advancing clock), and
text written with `f.write` is modelled as the list of written chunks, in
order.
-/

namespace Pipeline

/-- Outcome of `subprocess.run` for one child invocation: either the child
completed with a return code and captured stdout/stderr, or an exception was
raised while launching it (the `except Exception` branch of `run_script`). -/
inductive ProcOutcome where
  | completed (returncode : Int) (stdout stderr : String)
  | exception (msg : String)
deriving DecidableEq

/-- The ambient effects used by `run_full_pipeline.py`: whether a script file
exists (`os.path.isfile`), what a child process does (`subprocess.run`), and
how long it takes (in milliseconds of the model clock). -/
structure Env where
  script_exists : String → Bool
  run : List String → String → ProcOutcome
  runMillis : List String → Nat

/-- The per-step record built by `run_script` (the Python dict), with the two
timestamps kept as clock readings and the duration in milliseconds. -/
structure RunResult where
  command : List String
  status : String
  return_code : Int
  started_at : Nat
  ended_at : Nat
  duration_ms : Nat
  stdout : String
  stderr : String
deriving DecidableEq

/-- `os.path.join` for the two-argument uses in the orchestrator. -/
def joinPath (a b : String) : String := a ++ "/" ++ b

/-- Characters of `os.path.basename`: everything after the last slash. -/
def baseNameChars (l : List Char) : List Char :=
  (l.reverse.takeWhile (fun c => c ≠ '/')).reverse

/-- `os.path.basename`. -/
def basename (s : String) : String := String.mk (baseNameChars s.data)

/-- Characters of `os.path.splitext` (equally of `pathlib` stem/suffix):
split at the last dot, except that a name consisting of leading dots only
before that dot has no extension. -/
def splitExtChars (l : List Char) : List Char × List Char :=
  let rev := l.reverse
  let ext := rev.takeWhile (fun c => c ≠ '.')
  if ext.length ≥ l.length then (l, [])
  else
    let stem := (rev.drop (ext.length + 1)).reverse
    if stem.all (fun c => c = '.') then (l, [])
    else (stem, '.' :: ext.reverse)

/-- `os.path.splitext` / `pathlib.Path.stem`+`.suffix` on a file name. -/
def splitext (s : String) : String × String :=
  let p := splitExtChars s.data
  (String.mk p.1, String.mk p.2)

/-- `run_script(python_exe, script_path, args, input_text)` from
`run_full_pipeline.py`, lines 37-71, with the clock passed explicitly.  The
child's behaviour and its duration come from the environment oracle; the
returned clock is the time after the child exited. -/
def run_script (env : Env) (python_exe script_path : String) (args : List String)
    (input_text : String) (clock : Nat) : RunResult × Nat :=
  let start_time := clock
  let cmd := python_exe :: script_path :: args
  let clock1 := clock + env.runMillis cmd
  match env.run cmd input_text with
  | .completed rc out err =>
      ({ command := cmd
         status := if rc = 0 then "success" else "failed"
         return_code := rc
         started_at := start_time
         ended_at := clock1
         duration_ms := clock1 - start_time
         stdout := out
         stderr := err }, clock1)
  | .exception m =>
      ({ command := cmd
         status := "exception"
         return_code := -1
         started_at := start_time
         ended_at := clock1
         duration_ms := clock1 - start_time
         stdout := ""
         stderr := "Exception while running: " ++ m }, clock1)

/-- One entry of the hardcoded `SCRIPTS` list in `main`. -/
structure StepSpec where
  script : String
  args : List String
  confirm : Bool
  confirm_text : String
deriving DecidableEq

/-- One entry of `run_summary` built by the main loop. -/
structure StepEntry where
  name : String
  script : String
  args : List String
  auto_confirm : Bool
  skipped : Bool
  result : Option RunResult
  log_path : Option String
deriving DecidableEq

/-- The body of the `for step in SCRIPTS` loop of `main`
(`run_full_pipeline.py`, lines 162-193) for a single step: skip the step when
the script file is missing, otherwise run it exactly once and record the
result and log path. -/
def process_step (env : Env) (repo_root python_exe logs_dir : String)
    (step : StepSpec) (clock : Nat) : StepEntry × Nat :=
  let step_name := (splitext (basename step.script)).1
  if env.script_exists (joinPath repo_root step.script) then
    let input_text := if step.confirm then step.confirm_text else ""
    let r :=
      run_script env python_exe (joinPath repo_root step.script) step.args input_text clock
    ({ name := step_name, script := step.script, args := step.args,
       auto_confirm := step.confirm, skipped := false,
       result := some r.1,
       log_path := some (joinPath logs_dir (step_name ++ ".log")) }, r.2)
  else
    ({ name := step_name, script := step.script, args := step.args,
       auto_confirm := step.confirm, skipped := true,
       result := none, log_path := none }, clock)

/-- The `for step in SCRIPTS` loop of `main`: steps are processed strictly one
after the other, each appending exactly one entry to `run_summary`. -/
def main_loop (env : Env) (repo_root python_exe logs_dir : String) :
    List StepSpec → Nat → List StepEntry × Nat
  | [], clock => ([], clock)
  | step :: rest, clock =>
    let e := process_step env repo_root python_exe logs_dir step clock
    let es := main_loop env repo_root python_exe logs_dir rest e.2
    (e.1 :: es.1, es.2)

/-- The run summary built by the main loop lists every script of the input
list, in order (hence no step is retried and no failure halts the sequence),
and an entry is marked skipped exactly when its script file does not exist. -/
theorem main_loop_summary_spec (env : Env) (repo_root python_exe logs_dir : String) :
    ∀ (scripts : List StepSpec) (clock : Nat),
      (main_loop env repo_root python_exe logs_dir scripts clock).1.map
          (fun e => e.script) = scripts.map (fun s => s.script)
      ∧ (∀ e ∈ (main_loop env repo_root python_exe logs_dir scripts clock).1,
          (e.skipped = true
            ↔ env.script_exists (joinPath repo_root e.script) = false)) := by
  intro scripts
  induction scripts with
  | nil => intro clock; simp [main_loop]
  | cons s rest ih =>
    intro clock
    simp only [main_loop, List.map_cons]
    constructor
    · by_cases hex : env.script_exists (joinPath repo_root s.script) = true <;>
        simp [process_step, hex, (ih _).1]
    · intro e he
      rcases List.mem_cons.mp he with h1 | h2
      · subst h1
        by_cases hex : env.script_exists (joinPath repo_root s.script) = true <;>
          simp [process_step, hex]
      · exact (ih _).2 e h2

/-- Claim C1: for every step whose script file exists, `run_script` records
status "success" iff the child's return code is 0 and "failed" for every
nonzero return code; an exception is recorded as status "exception"; and
regardless of the recorded status the orchestrator does not retry the step
(each script of the list contributes exactly one summary entry) and still runs
every subsequent step (the summary lists every script, in order, with an entry
skipped exactly when its script file does not exist). -/
theorem c1_status_recording_no_retry_no_halt
    (env : Env) (repo_root python_exe logs_dir : String) :
    (∀ pexe sp args inp clock rc out err,
        env.run (pexe :: sp :: args) inp = ProcOutcome.completed rc out err →
        (((run_script env pexe sp args inp clock).1.status = "success" ↔ rc = 0)
          ∧ (rc ≠ 0 → (run_script env pexe sp args inp clock).1.status = "failed")))
    ∧ (∀ pexe sp args inp clock m,
        env.run (pexe :: sp :: args) inp = ProcOutcome.exception m →
        (run_script env pexe sp args inp clock).1.status = "exception")
    ∧ (∀ scripts clock,
        (main_loop env repo_root python_exe logs_dir scripts clock).1.map
            (fun e => e.script) = scripts.map (fun s => s.script)
        ∧ (∀ e ∈ (main_loop env repo_root python_exe logs_dir scripts clock).1,
            (e.skipped = true
              ↔ env.script_exists (joinPath repo_root e.script) = false))) := by
  refine ⟨?_, ?_, main_loop_summary_spec env repo_root python_exe logs_dir⟩
  · intro pexe sp args inp clock rc out err h
    constructor
    · simp only [run_script, h]
      by_cases hrc : rc = 0 <;> simp [hrc]
    · intro hrc
      simp [run_script, h, hrc]
  · intro pexe sp args inp clock m h
    simp [run_script, h]

/-- A concrete environment in which every script exists and every child
process exits with return code 0. -/
def envAllOk : Env where
  script_exists := fun _ => true
  run := fun _ _ => ProcOutcome.completed 0 "ok" ""
  runMillis := fun _ => 5

/-- A concrete environment in which launching any child raises. -/
def envRaises : Env where
  script_exists := fun _ => true
  run := fun _ _ => ProcOutcome.exception "boom"
  runMillis := fun _ => 5

/-- Witness for C1 at concrete inputs. -/
theorem c1_status_recording_no_retry_no_halt_witness :
    ((run_script envAllOk "python" "conv.py" [] "" 0).1.status = "success" ↔ (0 : Int) = 0)
    ∧ (run_script envRaises "python" "conv.py" [] "" 0).1.status = "exception"
    ∧ (main_loop envAllOk "root" "python" "logs"
        [⟨"convert_tif_to_png.py", [], false, "y\n"⟩] 0).1.map (fun e => e.script)
        = ["convert_tif_to_png.py"] := by
  refine ⟨((c1_status_recording_no_retry_no_halt envAllOk "root" "python" "logs").1
      "python" "conv.py" [] "" 0 0 "ok" "" rfl).1, ?_, ?_⟩
  · exact (c1_status_recording_no_retry_no_halt envRaises "root" "python" "logs").2.1
      "python" "conv.py" [] "" 0 "boom" rfl
  · exact ((c1_status_recording_no_retry_no_halt envAllOk "root" "python" "logs").2.2
      [⟨"convert_tif_to_png.py", [], false, "y\n"⟩] 0).1

/-- The clock never runs backwards over `run_script`. -/
theorem run_script_clock_le (env : Env) (pexe sp : String) (args : List String)
    (inp : String) (clock : Nat) : clock ≤ (run_script env pexe sp args inp clock).2 := by
  unfold run_script
  cases h : env.run (pexe :: sp :: args) inp <;> simp [h]

/-- The result built by `run_script` starts at the invocation clock and ends at
the returned clock. -/
theorem run_script_times (env : Env) (pexe sp : String) (args : List String)
    (inp : String) (clock : Nat) :
    (run_script env pexe sp args inp clock).1.started_at = clock
    ∧ (run_script env pexe sp args inp clock).1.ended_at
        = (run_script env pexe sp args inp clock).2 := by
  unfold run_script
  cases h : env.run (pexe :: sp :: args) inp <;> simp [h]

/-- The clock never runs backwards over one step of the main loop. -/
theorem process_step_clock_le (env : Env) (rr pe ld : String) (step : StepSpec)
    (clock : Nat) : clock ≤ (process_step env rr pe ld step clock).2 := by
  unfold process_step
  by_cases hex : env.script_exists (joinPath rr step.script) = true <;>
    simp [hex, run_script_clock_le]

/-- The clock never runs backwards over the main loop. -/
theorem main_loop_clock_le (env : Env) (rr pe ld : String) :
    ∀ (scripts : List StepSpec) (clock : Nat),
      clock ≤ (main_loop env rr pe ld scripts clock).2 := by
  intro scripts
  induction scripts with
  | nil => intro clock; simp [main_loop]
  | cons s rest ih =>
    intro clock
    exact le_trans (process_step_clock_le env rr pe ld s clock)
      (ih (process_step env rr pe ld s clock).2)

/-- Every recorded result of the main loop lies between the entry clock and the
exit clock, and the recorded result intervals of distinct steps are disjoint
and ordered: a later step starts no earlier than an earlier step ended. -/
theorem main_loop_time_spec (env : Env) (rr pe ld : String) :
    ∀ (scripts : List StepSpec) (clock : Nat),
      (∀ r ∈ (main_loop env rr pe ld scripts clock).1.filterMap (fun e => e.result),
          clock ≤ r.started_at ∧ r.started_at ≤ r.ended_at
            ∧ r.ended_at ≤ (main_loop env rr pe ld scripts clock).2)
      ∧ List.Pairwise (fun a b => a.ended_at ≤ b.started_at)
          ((main_loop env rr pe ld scripts clock).1.filterMap (fun e => e.result)) := by
  intro scripts
  induction scripts with
  | nil => intro clock; simp [main_loop]
  | cons s rest ih =>
    intro clock
    by_cases hex : env.script_exists (joinPath rr s.script) = true
    · have hst := run_script_times env pe (joinPath rr s.script) s.args
        (if s.confirm then s.confirm_text else "") clock
      have hcl := run_script_clock_le env pe (joinPath rr s.script) s.args
        (if s.confirm then s.confirm_text else "") clock
      have hrest := ih (run_script env pe (joinPath rr s.script) s.args
        (if s.confirm then s.confirm_text else "") clock).2
      have hloop : main_loop env rr pe ld (s :: rest) clock
          = ((process_step env rr pe ld s clock).1 ::
              (main_loop env rr pe ld rest (process_step env rr pe ld s clock).2).1,
             (main_loop env rr pe ld rest (process_step env rr pe ld s clock).2).2) := rfl
      have hps : process_step env rr pe ld s clock
          = ({ name := (splitext (basename s.script)).1, script := s.script,
               args := s.args, auto_confirm := s.confirm, skipped := false,
               result := some (run_script env pe (joinPath rr s.script) s.args
                 (if s.confirm then s.confirm_text else "") clock).1,
               log_path := some (joinPath ld ((splitext (basename s.script)).1 ++ ".log")) },
             (run_script env pe (joinPath rr s.script) s.args
               (if s.confirm then s.confirm_text else "") clock).2) := by
        simp [process_step, hex]
      rw [hloop, hps]
      simp only [List.filterMap_cons]
      constructor
      · intro r hr
        rcases List.mem_cons.mp hr with h1 | h2
        · subst h1
          refine ⟨le_of_eq hst.1.symm, ?_, ?_⟩
          · rw [hst.1, hst.2]; exact hcl
          · rw [hst.2]
            exact main_loop_clock_le env rr pe ld rest _
        · rcases hrest.1 r h2 with ⟨h2a, h2b, h2c⟩
          exact ⟨le_trans hcl h2a, h2b, h2c⟩
      · refine List.pairwise_cons.mpr ⟨?_, hrest.2⟩
        intro b hb
        rw [hst.2]
        exact (hrest.1 b hb).1
    · have hex2 : env.script_exists (joinPath rr s.script) = false := by
        revert hex
        cases env.script_exists (joinPath rr s.script) <;> simp
      have hps : process_step env rr pe ld s clock
          = ({ name := (splitext (basename s.script)).1, script := s.script,
               args := s.args, auto_confirm := s.confirm, skipped := true,
               result := none, log_path := none }, clock) := by
        simp [process_step, hex2]
      have hloop : main_loop env rr pe ld (s :: rest) clock
          = ((process_step env rr pe ld s clock).1 ::
              (main_loop env rr pe ld rest (process_step env rr pe ld s clock).2).1,
             (main_loop env rr pe ld rest (process_step env rr pe ld s clock).2).2) := rfl
      rw [hloop, hps]
      simp only [List.filterMap_cons]
      exact ih clock

/-- Claim C7: the orchestrator runs child processes strictly one at a time:
the run summary lists the steps in exactly the order of the `SCRIPTS` list,
and for any two recorded (non-skipped) steps, the later one's child started
no earlier than the earlier one's child had exited. -/
theorem c7_sequential_execution (env : Env) (rr pe ld : String)
    (scripts : List StepSpec) (clock : Nat) :
    (main_loop env rr pe ld scripts clock).1.map (fun e => e.script)
      = scripts.map (fun s => s.script)
    ∧ List.Pairwise (fun a b => a.ended_at ≤ b.started_at)
        ((main_loop env rr pe ld scripts clock).1.filterMap (fun e => e.result))
    ∧ (∀ r ∈ (main_loop env rr pe ld scripts clock).1.filterMap (fun e => e.result),
        r.started_at ≤ r.ended_at) := by
  refine ⟨(main_loop_summary_spec env rr pe ld scripts clock).1,
    (main_loop_time_spec env rr pe ld scripts clock).2, ?_⟩
  intro r hr
  exact ((main_loop_time_spec env rr pe ld scripts clock).1 r hr).2.1

/-- Decimal rendering with three digits after the point, of a duration held in
milliseconds: the model of Python's `f"{seconds:.3f}"` on the recorded
duration. -/
def fmtSeconds3 (ms : Nat) : String :=
  let frac := ms % 1000
  let pad := if frac < 10 then "00" else if frac < 100 then "0" else ""
  toString (ms / 1000) ++ "." ++ pad ++ toString frac

/-- Rendering of a clock reading, the model of `datetime.isoformat`. -/
def isoStr (t : Nat) : String := toString t

/-- `' '.join(...)` on the command list. -/
def joinSpaces (l : List String) : String := String.intercalate " " l

/-- An 80-character separator line followed by a newline. -/
def sepLine (c : Char) : String := String.mk (List.replicate 80 c) ++ "\n"

/-- `write_step_log` (`run_full_pipeline.py`, lines 74-89), modelled as the
list of chunks written to the per-step log file, in `f.write` order. -/
def write_step_log (result : RunResult) : List String :=
  [ "COMMAND: " ++ joinSpaces result.command ++ "\n"
  , "STARTED: " ++ isoStr result.started_at ++ "\n"
  , "ENDED:   " ++ isoStr result.ended_at ++ "\n"
  , "DURATION_SECONDS: " ++ fmtSeconds3 result.duration_ms ++ "\n"
  , "STATUS: " ++ result.status ++ "\n"
  , "RETURN_CODE: " ++ toString result.return_code ++ "\n\n"
  , "===== STDOUT =====\n"
  , result.stdout
  , "\n\n===== STDERR =====\n"
  , result.stderr
  , "\n" ]

/-- The chunks written by `write_report` for one summary entry. -/
def report_step_chunks (step : StepEntry) : List String :=
  [ sepLine '-'
  , "Step: " ++ step.name ++ "\n"
  , "Script: " ++ step.script ++ "\n"
  , "Args: " ++ (if step.args = [] then "(none)" else joinSpaces step.args) ++ "\n" ]
  ++ (if step.skipped then
        ["Status: SKIPPED (script not found)\n", "\n"]
      else
        match step.result with
        | none => []
        | some res =>
          [ "Status: " ++ res.status ++ " (code " ++ toString res.return_code ++ ")\n"
          , "Started: " ++ isoStr res.started_at ++ "\n"
          , "Ended:   " ++ isoStr res.ended_at ++ "\n"
          , "Duration: " ++ fmtSeconds3 res.duration_ms ++ " s\n"
          , "Command: " ++ joinSpaces res.command ++ "\n"
          , "Auto-confirm: " ++ (if step.auto_confirm then "yes" else "no") ++ "\n"
          , "Log file: " ++ (step.log_path.getD "") ++ "\n"
          , "\n"
          , "STDOUT\n"
          , "~~~~~~\n"
          , res.stdout
          , "\n\n"
          , "STDERR\n"
          , "~~~~~~\n"
          , res.stderr
          , "\n\n" ])

/-- `write_report` (`run_full_pipeline.py`, lines 92-126), modelled as the list
of chunks written to `pipeline_report.txt`, in `f.write` order. -/
def write_report (gen_time : Nat) (python_exe : String)
    (run_summary : List StepEntry) : List String :=
  [ "Pipeline Report\n"
  , sepLine '='
  , "Generated at: " ++ isoStr gen_time ++ "\n"
  , "Python: " ++ python_exe ++ "\n"
  , "\n" ]
  ++ (run_summary.map report_step_chunks).flatten

/-- Claim C3: for every completed (non-skipped) step, the per-step log and the
plain-text report both contain the command line, the start timestamp, the end
timestamp, the duration, the exit status (status string and return code), and
the captured standard output and standard error of that step. -/
theorem c3_report_and_log_contents (step : StepEntry) (res : RunResult)
    (summary : List StepEntry) (gen : Nat) (pexe : String)
    (hmem : step ∈ summary) (hns : step.skipped = false)
    (hres : step.result = some res) :
    (("COMMAND: " ++ joinSpaces res.command ++ "\n") ∈ write_step_log res
      ∧ ("STARTED: " ++ isoStr res.started_at ++ "\n") ∈ write_step_log res
      ∧ ("ENDED:   " ++ isoStr res.ended_at ++ "\n") ∈ write_step_log res
      ∧ ("DURATION_SECONDS: " ++ fmtSeconds3 res.duration_ms ++ "\n") ∈ write_step_log res
      ∧ ("STATUS: " ++ res.status ++ "\n") ∈ write_step_log res
      ∧ ("RETURN_CODE: " ++ toString res.return_code ++ "\n\n") ∈ write_step_log res
      ∧ res.stdout ∈ write_step_log res
      ∧ res.stderr ∈ write_step_log res)
    ∧ (("Status: " ++ res.status ++ " (code " ++ toString res.return_code ++ ")\n")
          ∈ write_report gen pexe summary
      ∧ ("Started: " ++ isoStr res.started_at ++ "\n") ∈ write_report gen pexe summary
      ∧ ("Ended:   " ++ isoStr res.ended_at ++ "\n") ∈ write_report gen pexe summary
      ∧ ("Duration: " ++ fmtSeconds3 res.duration_ms ++ " s\n") ∈ write_report gen pexe summary
      ∧ ("Command: " ++ joinSpaces res.command ++ "\n") ∈ write_report gen pexe summary
      ∧ res.stdout ∈ write_report gen pexe summary
      ∧ res.stderr ∈ write_report gen pexe summary) := by
  have hrep : ∀ c ∈ report_step_chunks step, c ∈ write_report gen pexe summary := by
    intro c hc
    unfold write_report
    refine List.mem_append.mpr (Or.inr ?_)
    exact List.mem_flatten.mpr ⟨report_step_chunks step, List.mem_map_of_mem _ hmem, hc⟩
  constructor
  · simp [write_step_log]
  · have hchunks : ∀ c ∈ ([ "Status: " ++ res.status ++ " (code "
        ++ toString res.return_code ++ ")\n"
      , "Started: " ++ isoStr res.started_at ++ "\n"
      , "Ended:   " ++ isoStr res.ended_at ++ "\n"
      , "Duration: " ++ fmtSeconds3 res.duration_ms ++ " s\n"
      , "Command: " ++ joinSpaces res.command ++ "\n"
      , "Auto-confirm: " ++ (if step.auto_confirm then "yes" else "no") ++ "\n"
      , "Log file: " ++ (step.log_path.getD "") ++ "\n"
      , "\n"
      , "STDOUT\n"
      , "~~~~~~\n"
      , res.stdout
      , "\n\n"
      , "STDERR\n"
      , "~~~~~~\n"
      , res.stderr
      , "\n\n" ] : List String), c ∈ report_step_chunks step := by
      intro c hc
      unfold report_step_chunks
      rw [hns, hres]
      simp only [if_false, Bool.false_eq_true]
      exact List.mem_append.mpr (Or.inr hc)
    refine ⟨hrep _ (hchunks _ ?_), hrep _ (hchunks _ ?_), hrep _ (hchunks _ ?_),
      hrep _ (hchunks _ ?_), hrep _ (hchunks _ ?_), hrep _ (hchunks _ ?_),
      hrep _ (hchunks _ ?_)⟩ <;> simp

/-- A concrete result record for the C3 witness. -/
def resW : RunResult :=
  { command := ["python", "root/convert_tif_to_png.py"]
    status := "success"
    return_code := 0
    started_at := 100
    ended_at := 105
    duration_ms := 5
    stdout := "converted 3 files"
    stderr := "" }

/-- A concrete summary entry for the C3 witness. -/
def stepW : StepEntry :=
  { name := "convert_tif_to_png"
    script := "convert_tif_to_png.py"
    args := []
    auto_confirm := false
    skipped := false
    result := some resW
    log_path := some "logs/convert_tif_to_png.log" }

/-- Witness for C3 at a concrete one-step summary. -/
theorem c3_report_and_log_contents_witness :
    ("STATUS: " ++ resW.status ++ "\n") ∈ write_step_log resW
    ∧ resW.stdout ∈ write_report 200 "python" [stepW]
    ∧ ("Command: " ++ joinSpaces resW.command ++ "\n") ∈ write_report 200 "python" [stepW] := by
  have h := c3_report_and_log_contents stepW resW [stepW] 200 "python"
    (List.mem_singleton.mpr rfl) rfl rfl
  exact ⟨h.1.2.2.2.2.1, h.2.2.2.2.2.2.1, h.2.2.2.2.2.1⟩

end Pipeline

namespace Strutil

/-- Python's `sub in s` on strings, at the character-list level: does `pat`
occur as a contiguous run inside the list? -/
def occursInChars (pat : List Char) : List Char → Bool
  | [] => pat.isEmpty
  | c :: rest => pat.isPrefixOf (c :: rest) || occursInChars pat rest

/-- Python's `sub in s` substring test. -/
def occursIn (pat s : String) : Bool := occursInChars pat.data s.data

/-- Python's `str.lower` on the ASCII names used in this repository. -/
def lowerChar (c : Char) : Char :=
  if 'A' ≤ c ∧ c ≤ 'Z' then Char.ofNat (c.toNat + 32) else c

/-- Python's `str.lower`. -/
def lowerStr (s : String) : String := String.mk (s.data.map lowerChar)

/-- Python's `str.endswith`. -/
def endsWith (s sfx : String) : Bool := sfx.data.isSuffixOf s.data

/-- `file.lower().endswith('.png')`, the PNG-name test used by the walkers. -/
def isPngName (f : String) : Bool := endsWith (lowerStr f) ".png"

end Strutil

namespace ConvertAll

/-- What happened when the batch loop of `convert_all_tif_to_png` processed
one TIFF file: `convert_tif_to_png` returned True, returned False, or the loop
body raised an exception (caught by the per-item `except`). -/
inductive ItemOutcome where
  | converted
  | convFailed
  | raised (msg : String)
deriving DecidableEq

/-- Did the item convert successfully? -/
def isConverted : ItemOutcome → Bool
  | .converted => true
  | _ => false

/-- The error message the loop records for an item, if any: one message for a
failed conversion, one for a raised exception, none on success. -/
def errorMessageOf : String × ItemOutcome → Option String
  | (_, .converted) => none
  | (p, .convFailed) => some ("Failed to convert: " ++ p)
  | (p, .raised m) => some ("Error processing " ++ p ++ ": " ++ m)

/-- The `for i, tif_path in enumerate(tif_files, 1)` loop of
`convert_all_tif_to_png` (`convert_tif_to_png.py`, lines 93-120), with
`delete_original=False` as in the orchestrated run, returning
`(success_count, error_count, errors)`.  Each list element is a source path
together with what processing it did. -/
def convert_all_tif_to_png : List (String × ItemOutcome) → Nat × Nat × List String
  | [] => (0, 0, [])
  | (p, o) :: rest =>
    let r := convert_all_tif_to_png rest
    match o with
    | .converted => (r.1 + 1, r.2.1, r.2.2)
    | .convFailed => (r.1, r.2.1 + 1, ("Failed to convert: " ++ p) :: r.2.2)
    | .raised m => (r.1, r.2.1 + 1, ("Error processing " ++ p ++ ": " ++ m) :: r.2.2)

end ConvertAll

namespace PostFiles

/-- Outcome of `os.remove` on a file the deletion loop attempts to delete. -/
inductive RemoveOutcome where
  | removed
  | raised (msg : String)
deriving DecidableEq

/-- Did the loop count this item as a successful deletion?  It does exactly
when the file existed and `os.remove` did not raise. -/
def delSuccess : Bool × RemoveOutcome → Bool
  | (true, .removed) => true
  | _ => false

/-- The error message the deletion loop records for an item, if any. -/
def delErrorMessageOf : String × Bool × RemoveOutcome → Option String
  | (p, true, .raised m) => some ("Error deleting " ++ p ++ ": " ++ m)
  | _ => none

/-- The `for i, file_path in enumerate(post_files, 1)` loop of
`delete_post_files` with `dry_run=False` (`delete_post_files.py`, lines
47-65), returning `(success_count, error_count, errors)`.  Each element is a
path, whether the file still exists, and what `os.remove` did when tried. -/
def delete_loop : List (String × Bool × RemoveOutcome) → Nat × Nat × List String
  | [] => (0, 0, [])
  | (p, present, o) :: rest =>
    let r := delete_loop rest
    if present then
      match o with
      | .removed => (r.1 + 1, r.2.1, r.2.2)
      | .raised m => (r.1, r.2.1 + 1, ("Error deleting " ++ p ++ ": " ++ m) :: r.2.2)
    else r

end PostFiles

/-- Claim C2: in the batch scripts, a per-item exception records exactly one
error message for that item and increments the error count by one, and the
loop still processes every remaining item (the counters and messages are a
total function of the whole item list, with successes plus errors accounting
for every item in `convert_all_tif_to_png`, and with one recorded message per
existing-but-failing item in `delete_post_files`). -/
theorem c2_per_item_failures_never_abort :
    (∀ items : List (String × ConvertAll.ItemOutcome),
        (ConvertAll.convert_all_tif_to_png items).1
            = items.countP (fun it => ConvertAll.isConverted it.2)
        ∧ (ConvertAll.convert_all_tif_to_png items).2.1
            = items.countP (fun it => !(ConvertAll.isConverted it.2))
        ∧ (ConvertAll.convert_all_tif_to_png items).2.2
            = items.filterMap ConvertAll.errorMessageOf
        ∧ (ConvertAll.convert_all_tif_to_png items).1
            + (ConvertAll.convert_all_tif_to_png items).2.1 = items.length)
    ∧ (∀ items : List (String × Bool × PostFiles.RemoveOutcome),
        (PostFiles.delete_loop items).1
            = items.countP (fun it => PostFiles.delSuccess it.2)
        ∧ (PostFiles.delete_loop items).2.1
            = (items.filterMap PostFiles.delErrorMessageOf).length
        ∧ (PostFiles.delete_loop items).2.2
            = items.filterMap PostFiles.delErrorMessageOf) := by
  constructor
  · intro items
    have h3 : (ConvertAll.convert_all_tif_to_png items).1
            = items.countP (fun it => ConvertAll.isConverted it.2)
        ∧ (ConvertAll.convert_all_tif_to_png items).2.1
            = items.countP (fun it => !(ConvertAll.isConverted it.2))
        ∧ (ConvertAll.convert_all_tif_to_png items).2.2
            = items.filterMap ConvertAll.errorMessageOf := by
      induction items with
      | nil => simp [ConvertAll.convert_all_tif_to_png]
      | cons it rest ih =>
        obtain ⟨p, o⟩ := it
        cases o <;>
          simp [ConvertAll.convert_all_tif_to_png, ConvertAll.isConverted,
            ConvertAll.errorMessageOf, List.countP_cons, ih.1, ih.2.1, ih.2.2]
    refine ⟨h3.1, h3.2.1, h3.2.2, ?_⟩
    rw [h3.1, h3.2.1]
    simpa using
      (List.length_eq_countP_add_countP
        (p := fun it => ConvertAll.isConverted it.2) (l := items)).symm
  · intro items
    induction items with
    | nil => simp [PostFiles.delete_loop]
    | cons it rest ih =>
      obtain ⟨p, present, o⟩ := it
      cases present <;> cases o <;>
        simp [PostFiles.delete_loop, PostFiles.delSuccess,
          PostFiles.delErrorMessageOf, List.countP_cons, ih.1, ih.2.1, ih.2.2]

/-- One directory of a walked tree (`os.walk` order): its path components
relative to the walk root and the names of the files directly in it. -/
structure FSDir where
  parts : List String
  files : List String
deriving DecidableEq

namespace PostFiles

/-- `find_post_files` (`delete_post_files.py`, lines 3-22): walk the tree and
collect (directory, file-name) for every file whose name contains "__post".
A returned pair stands for the joined path `root/…parts…/name`. -/
def find_post_files (fs : List FSDir) : List (List String × String) :=
  fs.flatMap (fun d =>
    (d.files.filter (fun f => Strutil.occursIn "__post" f)).map (fun f => (d.parts, f)))

/-- `os.path.exists` on the modelled tree. -/
def os_exists (fs : List FSDir) (p : List String × String) : Bool :=
  fs.any (fun d => d.parts = p.1 ∧ p.2 ∈ d.files)

/-- `os.remove` on the modelled tree. -/
def os_remove (fs : List FSDir) (p : List String × String) : List FSDir :=
  fs.map (fun d =>
    if d.parts = p.1 then { d with files := d.files.filter (fun f => f ≠ p.2) } else d)

/-- The filesystem effect of `delete_post_files(root, dry_run=False)`
(`delete_post_files.py`, lines 47-65): find the "__post" files, then delete
each found path that (still) exists. -/
def delete_post_files (fs : List FSDir) : List FSDir :=
  (find_post_files fs).foldl (fun st p => if os_exists st p then os_remove st p else st) fs

/-- Deleting a path that does not exist is a no-op, so the existence check in
the loop is immaterial to the final tree. -/
theorem delete_step_eq_remove (st : List FSDir) (p : List String × String) :
    (if os_exists st p then os_remove st p else st) = os_remove st p := by
  by_cases h : os_exists st p = true
  · simp [h]
  · have hno : ∀ d ∈ st, ¬(d.parts = p.1 ∧ p.2 ∈ d.files) := by
      intro d hd hcon
      exact h (List.any_eq_true.mpr ⟨d, hd, by simpa using hcon⟩)
    have hid : os_remove st p = st := by
      unfold os_remove
      conv_rhs => rw [show st = st.map id from (List.map_id st).symm]
      apply List.map_congr_left
      intro d hd
      by_cases hp : d.parts = p.1
      · have hnm : p.2 ∉ d.files := fun hmem => hno d hd ⟨hp, hmem⟩
        have hfe : d.files.filter (fun f => f ≠ p.2) = d.files := by
          apply List.filter_eq_self.mpr
          intro a ha
          simp only [decide_eq_true_eq]
          intro hEq
          exact hnm (hEq ▸ ha)
        rw [if_pos hp]
        show ({ parts := d.parts, files := d.files.filter (fun f => f ≠ p.2) } : FSDir) = id d
        rw [hfe]
        rfl
      · simp [hp]
    simp [h, hid]

/-- Whether a (directory, name) pair is hit by one of the found paths. -/
def hitBy (L : List (List String × String)) (parts : List String) (f : String) : Bool :=
  decide ((parts, f) ∈ L)

/-- Folding deletions of a path list over a tree filters, in every directory,
exactly the names hit by the list. -/
theorem fold_remove_spec :
    ∀ (L : List (List String × String)) (fs : List FSDir),
      L.foldl (fun st p => if os_exists st p then os_remove st p else st) fs
        = fs.map (fun d =>
            { d with files := d.files.filter (fun f => !(hitBy L d.parts f)) }) := by
  intro L
  induction L with
  | nil =>
    intro fs
    simp [hitBy, List.filter_eq_self]
  | cons p L ih =>
    intro fs
    rw [List.foldl_cons, delete_step_eq_remove, ih]
    unfold os_remove
    rw [List.map_map]
    apply List.map_congr_left
    intro d _
    simp only [Function.comp]
    by_cases hp : d.parts = p.1
    · simp only [hp, if_true]
      rw [List.filter_filter]
      congr 1
      apply List.filter_congr
      intro f _
      by_cases hf : f = p.2
      · simp [hitBy, hf, List.mem_cons, Prod.mk.eta]
      · simp [hitBy, hf, List.mem_cons, Prod.ext_iff]
    · simp only [hp, if_false]
      congr 1
      apply List.filter_congr
      intro f _
      have : ((d.parts, f) ∈ p :: L) = ((d.parts, f) ∈ L) := by
        simp [List.mem_cons, Prod.ext_iff, hp]
      simp [hitBy, this]

/-- A pair is found by `find_post_files` exactly when it names a file of the
tree whose name contains "__post". -/
theorem find_post_files_mem (fs : List FSDir) (parts : List String) (f : String) :
    (parts, f) ∈ find_post_files fs
      ↔ ∃ d ∈ fs, d.parts = parts ∧ f ∈ d.files ∧ Strutil.occursIn "__post" f = true := by
  unfold find_post_files
  simp only [List.mem_flatMap, List.mem_map, List.mem_filter]
  constructor
  · rintro ⟨d, hd, g, ⟨hg, hocc⟩, hEq⟩
    obtain ⟨h1, h2⟩ := Prod.mk.injEq .. ▸ hEq
    exact ⟨d, hd, h1.symm ▸ rfl, h2 ▸ hg, h2 ▸ hocc⟩
  · rintro ⟨d, hd, h1, h2, h3⟩
    exact ⟨d, hd, f, ⟨h2, h3⟩, by rw [h1]⟩

end PostFiles

/-- Claim C6: deletion is keyed on exact substring matching of file names:
`find_post_files` returns exactly those files under the root whose name
contains the substring "__post", and `delete_post_files` with `dry_run=False`
removes exactly the existing files of that list and no other file — the
resulting tree is the original with precisely the "__post"-named files
filtered out of every directory. -/
theorem c6_post_matching_and_exact_deletion (fs : List FSDir) :
    (∀ parts f, ((parts, f) ∈ PostFiles.find_post_files fs
        ↔ ∃ d ∈ fs, d.parts = parts ∧ f ∈ d.files
            ∧ Strutil.occursIn "__post" f = true))
    ∧ PostFiles.delete_post_files fs
        = fs.map (fun d =>
            { d with files := d.files.filter (fun f => !(Strutil.occursIn "__post" f)) }) := by
  refine ⟨fun parts f => PostFiles.find_post_files_mem fs parts f, ?_⟩
  unfold PostFiles.delete_post_files
  rw [PostFiles.fold_remove_spec]
  apply List.map_congr_left
  intro d hd
  congr 1
  apply List.filter_congr
  intro f hf
  congr 1
  unfold PostFiles.hitBy
  by_cases hocc : Strutil.occursIn "__post" f = true
  · rw [hocc]
    simp only [decide_eq_true_eq]
    exact (PostFiles.find_post_files_mem fs d.parts f).mpr ⟨d, hd, rfl, hf, hocc⟩
  · have hocc2 : Strutil.occursIn "__post" f = false := by
      revert hocc; cases Strutil.occursIn "__post" f <;> simp
    rw [hocc2]
    simp only [decide_eq_false_iff_not]
    intro hmem
    obtain ⟨d2, _, _, _, h4⟩ := (PostFiles.find_post_files_mem fs d.parts f).mp hmem
    rw [h4] at hocc2
    cases hocc2

namespace TifToPng

/-- A PIL image as far as `convert_tif_to_png` observes it: pixel dimensions
and mode string.  `PIL.Image.convert` and `Image.fromarray(np.array(img))`
both preserve the pixel dimensions; modes are the PIL mode strings. -/
structure Img where
  width : Nat
  height : Nat
  mode : String
deriving DecidableEq

/-- `img.convert(m)`: changes the mode, keeps the dimensions. -/
def convertMode (img : Img) (m : String) : Img :=
  { img with mode := m }

/-- The mode-'F' branch of `convert_tif_to_png`: `np.array(img)` has shape
`(height, width)`; when the array is nonempty it is normalised elementwise
(shape preserved) and turned back into a mode-'L' image of the same shape by
`Image.fromarray`; when it is empty the image is converted to 'L' instead. -/
def normalizeFloat (img : Img) : Img :=
  if img.width * img.height > 0 then
    { width := img.width, height := img.height, mode := "L" }
  else
    convertMode img "L"

/-- `convert_tif_to_png(tif_path, png_path)` (`convert_tif_to_png.py`, lines
27-68).  The argument is the outcome of `Image.open` (an exception there is
caught and makes the function return False, modelled as `none`); the returned
image is the one handed to `img.save(png_path, 'PNG')`.  The branch structure
mirrors the source, including the unreachable second `'P'` branch. -/
def convert_tif_to_png (opened : Except String Img) : Option Img :=
  match opened with
  | .error _ => none
  | .ok img =>
    if img.mode = "F" then
      some (normalizeFloat img)
    else if img.mode = "RGBA" ∨ img.mode = "LA" ∨ img.mode = "P" then
      some img
    else if img.mode = "P" then
      some (convertMode img "RGBA")
    else
      some (convertMode img "RGB")

end TifToPng

/-- Claim C5: whenever `convert_tif_to_png` succeeds (returns True), the PNG
image it saved has exactly the pixel dimensions of the opened source TIFF, in
every mode branch — floating-point 'F' (normalised through numpy), the
alpha/palette modes saved as-is, and everything else converted to RGB. -/
theorem c5_conversion_preserves_dimensions (opened : Except String TifToPng.Img)
    (img out : TifToPng.Img) (hok : opened = Except.ok img)
    (hconv : TifToPng.convert_tif_to_png opened = some out) :
    out.width = img.width ∧ out.height = img.height := by
  subst hok
  unfold TifToPng.convert_tif_to_png at hconv
  simp only [] at hconv
  by_cases hF : img.mode = "F"
  · rw [if_pos hF] at hconv
    obtain rfl : TifToPng.normalizeFloat img = out := Option.some.inj hconv
    unfold TifToPng.normalizeFloat
    by_cases hsz : img.width * img.height > 0
    · simp [hsz]
    · simp [hsz, TifToPng.convertMode]
  · rw [if_neg hF] at hconv
    by_cases hA : img.mode = "RGBA" ∨ img.mode = "LA" ∨ img.mode = "P"
    · rw [if_pos hA] at hconv
      obtain rfl : img = out := Option.some.inj hconv
      exact ⟨rfl, rfl⟩
    · rw [if_neg hA] at hconv
      rw [if_neg (fun hP => hA (Or.inr (Or.inr hP)))] at hconv
      obtain rfl : TifToPng.convertMode img "RGB" = out := Option.some.inj hconv
      exact ⟨rfl, rfl⟩

/-- Witness for C5: a 64x48 floating-point source converts to a 64x48 PNG. -/
theorem c5_conversion_preserves_dimensions_witness :
    (TifToPng.convert_tif_to_png (Except.ok ⟨64, 48, "F"⟩)) = some ⟨64, 48, "L"⟩
    ∧ (64 : Nat) = 64 ∧ (48 : Nat) = 48 := by
  refine ⟨by decide, ?_⟩
  exact c5_conversion_preserves_dimensions (Except.ok ⟨64, 48, "F"⟩) ⟨64, 48, "F"⟩
    ⟨64, 48, "L"⟩ rfl (by decide)

namespace RenameFolders

/-- Python's `str.replace` (all non-overlapping occurrences, leftmost first)
for a nonempty pattern, at the character-list level, with the input length as
fuel (each step consumes at least one character). -/
def replaceAux (pat rep : List Char) : Nat → List Char → List Char
  | _, [] => []
  | 0, l => l
  | fuel + 1, c :: rest =>
    if pat ≠ [] ∧ pat.isPrefixOf (c :: rest) then
      rep ++ replaceAux pat rep fuel ((c :: rest).drop pat.length)
    else
      c :: replaceAux pat rep fuel rest

/-- Python's `str.replace`. -/
def replaceStr (s pat rep : String) : String :=
  String.mk (replaceAux pat.data rep.data s.data.length s.data)

/-- The body of the `for dir_name in dirs` loop of `find_folders_to_rename`
(`rename_folders.py`, lines 16-53) for one directory name: the proposed
`(new_name, rename_type)`, or `none` when the name needs no rename (the final
`if new_name and new_name != dir_name` guard included). -/
def proposeRename (dirName : String) : Option (String × String) :=
  let lower := Strutil.lowerStr dirName
  let pair : Option (String × String) :=
    if Strutil.occursIn "tumor" lower || Strutil.occursIn "tumour" lower then
      if Strutil.occursIn "_" dirName
          && (Strutil.occursIn "tumor" lower || Strutil.occursIn "tumour" lower) then
        some ("tumour", dirName ++ " → tumour")
      else
        let n0 := dirName
        let n1 := if Strutil.occursIn "Tumor" dirName then replaceStr n0 "Tumor" "Tumour" else n0
        let n2 := if Strutil.occursIn "tumor" dirName then replaceStr n1 "tumor" "tumour" else n1
        let n3 := if Strutil.occursIn "TUMOR" dirName then replaceStr n2 "TUMOR" "TUMOUR" else n2
        some (n3, "tumor → tumour")
    else if Strutil.occursIn "healthy" lower && !(lower == "healthy") then
      if Strutil.occursIn "_" dirName && Strutil.occursIn "healthy" lower then
        some ("healthy", dirName ++ " → healthy")
      else
        some ("healthy", "healthy → healthy")
    else
      none
  match pair with
  | some (n, ty) => if n ≠ "" ∧ n ≠ dirName then some (n, ty) else none
  | none => none

/-- A proposed rename: old path, new path, and the printed rename type. -/
structure RenameEntry where
  old_path : List String
  new_path : List String
  rtype : String
deriving DecidableEq

/-- `find_folders_to_rename` (`rename_folders.py`, lines 16-53) over the
walked tree, given as the `(root, dir_name)` pairs `os.walk` yields. -/
def find_folders_to_rename (walk : List (List String × String)) : List RenameEntry :=
  walk.filterMap (fun rd =>
    (proposeRename rd.2).map (fun nt => ⟨rd.1 ++ [rd.2], rd.1 ++ [nt.1], nt.2⟩))

end RenameFolders

/-- Claim C9: the folder-name normalisation scan is idempotent on
already-normalised names: a directory named exactly "healthy" or exactly
"tumour" gets no rename proposal, so a scan of a tree in which every class
folder already carries one of these exact names returns the empty list. -/
theorem c9_rename_scan_idempotent (walk : List (List String × String))
    (hnorm : ∀ rd ∈ walk, rd.2 = "healthy" ∨ rd.2 = "tumour") :
    RenameFolders.find_folders_to_rename walk = [] := by
  have hh : RenameFolders.proposeRename "healthy" = none := by decide
  have ht : RenameFolders.proposeRename "tumour" = none := by decide
  induction walk with
  | nil => rfl
  | cons rd rest ih =>
    have hcur : RenameFolders.proposeRename rd.2 = none := by
      rcases hnorm rd (List.mem_cons_self rd rest) with h | h <;> rw [h]
      · exact hh
      · exact ht
    unfold RenameFolders.find_folders_to_rename
    rw [List.filterMap_cons]
    rw [hcur]
    exact ih (fun x hx => hnorm x (List.mem_cons_of_mem rd hx))

/-- Witness for C9: a concrete normalised two-folder tree scans to no
proposals. -/
theorem c9_rename_scan_idempotent_witness :
    RenameFolders.find_folders_to_rename
      [(["PNG_Files"], "healthy"), (["PNG_Files"], "tumour")] = [] := by
  exact c9_rename_scan_idempotent
    [(["PNG_Files"], "healthy"), (["PNG_Files"], "tumour")] (by decide)

namespace Consolidate

end Consolidate

namespace CountPng

end CountPng

namespace Divide

/-- A PIL image as the tiling script observes it: dimensions, mode and a
pixel accessor returning an RGB triple at (x, y). -/
structure PixImage where
  w : Nat
  h : Nat
  mode : String
  px : Nat → Nat → Nat × Nat × Nat

/-- `img.resize((w, h))`: the result has the requested dimensions; the pixel
content is produced by the library's resampling, modelled as an oracle. -/
def resize (resample : PixImage → Nat → Nat → Nat × Nat × Nat) (img : PixImage)
    (w h : Nat) : PixImage :=
  { w := w, h := h, mode := img.mode, px := resample img }

/-- `img.convert('RGB')`: dimensions unchanged, pixel values transformed
pointwise by the library (oracle `tf`). -/
def toRGB (tf : Nat × Nat × Nat → Nat × Nat × Nat) (img : PixImage) : PixImage :=
  { w := img.w, h := img.h, mode := "RGB", px := fun x y => tf (img.px x y) }

/-- `img.crop((left, top, right, bottom))` in PIL: a (right-left)x(bottom-top)
image whose pixel (x, y) is the source pixel (left+x, top+y). -/
def crop (img : PixImage) (left top right bottom : Nat) : PixImage :=
  { w := right - left, h := bottom - top, mode := img.mode,
    px := fun x y => img.px (left + x) (top + y) }

/-- The image actually tiled by `divide_image` (`divide_images_generic.py`,
lines 21-25): resized to 128x128 unless already that size, then converted to
RGB unless already in RGB mode. -/
def preprocess (resample : PixImage → Nat → Nat → Nat × Nat × Nat)
    (tf : Nat × Nat × Nat → Nat × Nat × Nat) (img : PixImage) : PixImage :=
  let img1 := if img.w = 128 ∧ img.h = 128 then img else resize resample img 128 128
  if img1.mode = "RGB" then img1 else toRGB tf img1

/-- Zero-padded two-digit rendering, Python's `f"{n:02d}"` for the piece
numbers 1..16. -/
def pad2 (n : Nat) : String := if n < 10 then "0" ++ toString n else toString n

/-- `divide_image` (`divide_images_generic.py`, lines 19-42): the 16 saved
32x32 pieces with their file names, in row-major order; piece (row, col) is
the crop at `(col*32, row*32, col*32+32, row*32+32)` of the preprocessed
image.  A failing `Image.open` (the `except` branch returning 0 pieces) is
modelled by the `Except` argument. -/
def divide_image (resample : PixImage → Nat → Nat → Nat × Nat × Nat)
    (tf : Nat × Nat × Nat → Nat × Nat × Nat)
    (opened : Except String PixImage) (base : String) : List (String × PixImage) :=
  match opened with
  | .error _ => []
  | .ok img =>
    let img2 := preprocess resample tf img
    (List.range 4).flatMap (fun row =>
      (List.range 4).map (fun col =>
        (base ++ "_piece_" ++ pad2 (row * 4 + col + 1) ++ ".png",
         crop img2 (col * 32) (row * 32) (col * 32 + 32) (row * 32 + 32))))

/-- Pasting the pieces back at their grid positions: pixel (x, y) is read from
piece `(y/32)*4 + x/32` at offset `(x % 32, y % 32)`. -/
def reassemble (pieces : List (String × PixImage)) (x y : Nat) : Nat × Nat × Nat :=
  match pieces[(y / 32) * 4 + x / 32]? with
  | some pc => pc.2.px (x % 32) (y % 32)
  | none => (0, 0, 0)

/-- Indexing the produced piece list at `r*4 + c` yields the (r, c) crop. -/
theorem divide_image_get (resample : PixImage → Nat → Nat → Nat × Nat × Nat)
    (tf : Nat × Nat × Nat → Nat × Nat × Nat) (img : PixImage) (base : String)
    (r c : Nat) (hr : r < 4) (hc : c < 4) :
    (divide_image resample tf (Except.ok img) base)[r * 4 + c]?
      = some (base ++ "_piece_" ++ pad2 (r * 4 + c + 1) ++ ".png",
          crop (preprocess resample tf img)
            (c * 32) (r * 32) (c * 32 + 32) (r * 32 + 32)) := by
  interval_cases r <;> interval_cases c <;> rfl

end Divide

/-- Claim C8: tiling partitions the image: a successfully opened image yields
exactly 16 pieces, each 32x32, cropped at the pairwise-disjoint covering
grid offsets (col*32, row*32) — every x < 128 lies in the column range of
exactly one c < 4 — and pasting the 16 pieces back at their grid positions
reproduces every pixel of the resized, RGB-converted source image. -/
theorem c8_tiling_partitions_and_reassembles
    (resample : Divide.PixImage → Nat → Nat → Nat × Nat × Nat)
    (tf : Nat × Nat × Nat → Nat × Nat × Nat) (img : Divide.PixImage) (base : String) :
    (Divide.divide_image resample tf (Except.ok img) base).length = 16
    ∧ (∀ pc ∈ Divide.divide_image resample tf (Except.ok img) base,
        pc.2.w = 32 ∧ pc.2.h = 32)
    ∧ (∀ x, x < 128 → ∃! c, c < 4 ∧ c * 32 ≤ x ∧ x < c * 32 + 32)
    ∧ (∀ x y, x < 128 → y < 128 →
        Divide.reassemble (Divide.divide_image resample tf (Except.ok img) base) x y
          = (Divide.preprocess resample tf img).px x y) := by
  refine ⟨rfl, ?_, ?_, ?_⟩
  · intro pc hpc
    simp only [Divide.divide_image, List.mem_flatMap, List.mem_map,
      List.mem_range] at hpc
    obtain ⟨row, hrow, col, hcol, rfl⟩ := hpc
    constructor <;> simp [Divide.crop]
  · intro x hx
    refine ⟨x / 32, ⟨by omega, by omega, by omega⟩, ?_⟩
    intro c hc
    omega
  · intro x y hx hy
    have hr : y / 32 < 4 := by omega
    have hc : x / 32 < 4 := by omega
    unfold Divide.reassemble
    rw [Divide.divide_image_get resample tf img base (y / 32) (x / 32) hr hc]
    simp only [Divide.crop]
    have h1 : x / 32 * 32 + x % 32 = x := by omega
    have h2 : y / 32 * 32 + y % 32 = y := by omega
    rw [h1, h2]

/-- A concrete constant image for the C8 witness. -/
def imgW : Divide.PixImage :=
  { w := 128, h := 128, mode := "RGB", px := fun _ _ => (7, 7, 7) }

/-- Witness for C8: at a concrete 128x128 RGB image, 16 pieces are produced
and the reassembled pixel (5, 70) equals the preprocessed source pixel. -/
theorem c8_tiling_partitions_and_reassembles_witness :
    (Divide.divide_image (fun i _ _ => i.px 0 0) id (Except.ok imgW) "b").length = 16
    ∧ Divide.reassemble
        (Divide.divide_image (fun i _ _ => i.px 0 0) id (Except.ok imgW) "b") 5 70
        = (Divide.preprocess (fun i _ _ => i.px 0 0) id imgW).px 5 70 := by
  refine ⟨(c8_tiling_partitions_and_reassembles (fun i _ _ => i.px 0 0) id imgW "b").1,
    (c8_tiling_partitions_and_reassembles (fun i _ _ => i.px 0 0) id imgW "b").2.2.2
      5 70 (by decide) (by decide)⟩

namespace Flatten

/-- A file of the tree being flattened by `flatten_crc_structure.py`: its
directory path components relative to the base directory (`Processed/healthy`
or `Processed/tumour`), its name, and its content. -/
structure FFile where
  dir : List String
  name : String
  content : Nat
deriving DecidableEq

/-- The duplicated-structure test of `flatten_directory`
(`flatten_crc_structure.py`, line 40): at least three relative path
components with `parts[0] == parts[1]` and `parts[2] == "images"`. -/
def isCRCImagesDir (dir : List String) : Bool :=
  match dir with
  | a :: b :: c :: _ => a == b && c == "images"
  | _ => false

/-- Little-endian decimal digits, with explicit fuel so the recursion is
structural and concrete values reduce. -/
def decDigitsAux : Nat → Nat → List Nat
  | _, 0 => []
  | 0, _ + 1 => []
  | fuel + 1, n + 1 => ((n + 1) % 10) :: decDigitsAux fuel ((n + 1) / 10)

/-- Little-endian decimal digits of a counter value. -/
def decDigits (n : Nat) : List Nat := decDigitsAux n n

/-- Characters of Python's decimal rendering of a positive counter. -/
def decChars (k : Nat) : List Char :=
  (decDigits k).reverse.map (fun d => Char.ofNat (48 + d))

/-- The candidate target names tried by the conflict loop
(`flatten_crc_structure.py`, lines 54-60): the original file name first, then
`f"{stem}_{counter}{suffix}"` for counter 1, 2, .... -/
def candName (stem sfx : List Char) (name : String) (k : Nat) : String :=
  if k = 0 then name else String.mk (stem ++ ('_' :: decChars k ++ sfx))

/-- Decoding the digit list recovers the number (enough fuel given). -/
theorem decDigitsAux_decode :
    ∀ (fuel n : Nat), n ≤ fuel →
      (decDigitsAux fuel n).foldr (fun d acc => d + 10 * acc) 0 = n := by
  intro fuel
  induction fuel with
  | zero =>
    intro n hn
    interval_cases n
    rfl
  | succ fuel ih =>
    intro n hn
    match n with
    | 0 => rfl
    | m + 1 =>
      have hdiv : (m + 1) / 10 ≤ fuel := by omega
      rw [show decDigitsAux (fuel + 1) (m + 1)
          = ((m + 1) % 10) :: decDigitsAux fuel ((m + 1) / 10) from rfl]
      rw [List.foldr_cons, ih _ hdiv]
      omega

/-- The decimal digit list determines the number. -/
theorem decDigits_inj (j k : Nat) (h : decDigits j = decDigits k) : j = k := by
  have hj := decDigitsAux_decode j j (le_refl j)
  have hk := decDigitsAux_decode k k (le_refl k)
  unfold decDigits at h
  rw [h] at hj
  exact hj.symm.trans hk

/-- Every produced digit is below ten. -/
theorem decDigitsAux_lt_ten :
    ∀ (fuel n : Nat), ∀ d ∈ decDigitsAux fuel n, d < 10 := by
  intro fuel
  induction fuel with
  | zero =>
    intro n d hd
    match n with
    | 0 => simp [decDigitsAux] at hd
    | m + 1 => simp [decDigitsAux] at hd
  | succ fuel ih =>
    intro n d hd
    match n with
    | 0 => simp [decDigitsAux] at hd
    | m + 1 =>
      rw [show decDigitsAux (fuel + 1) (m + 1)
          = ((m + 1) % 10) :: decDigitsAux fuel ((m + 1) / 10) from rfl] at hd
      rcases List.mem_cons.mp hd with rfl | hd2
      · omega
      · exact ih _ d hd2

/-- The decimal digit characters are pairwise distinct. -/
theorem digitChar_inj (a b : Nat) (ha : a < 10) (hb : b < 10)
    (h : Char.ofNat (48 + a) = Char.ofNat (48 + b)) : a = b := by
  interval_cases a <;> interval_cases b <;> revert h <;> decide

/-- Mapping digits to characters is injective on digit lists. -/
theorem map_digitChar_inj :
    ∀ (l1 l2 : List Nat), (∀ x ∈ l1, x < 10) → (∀ x ∈ l2, x < 10) →
      l1.map (fun d => Char.ofNat (48 + d)) = l2.map (fun d => Char.ofNat (48 + d)) →
      l1 = l2 := by
  intro l1
  induction l1 with
  | nil =>
    intro l2 _ _ h
    cases l2 with
    | nil => rfl
    | cons b t2 => simp at h
  | cons a t ih =>
    intro l2 h1 h2 h
    cases l2 with
    | nil => simp at h
    | cons b t2 =>
      simp only [List.map_cons, List.cons.injEq] at h
      have hab := digitChar_inj a b (h1 a (List.mem_cons_self a t))
        (h2 b (List.mem_cons_self b t2)) h.1
      rw [hab, ih t2 (fun x hx => h1 x (List.mem_cons_of_mem a hx))
        (fun x hx => h2 x (List.mem_cons_of_mem b hx)) h.2]

/-- The rendered counter determines the counter. -/
theorem decChars_inj (j k : Nat) (h : decChars j = decChars k) : j = k := by
  unfold decChars at h
  have h2 := map_digitChar_inj (decDigits j).reverse (decDigits k).reverse
    (fun x hx => decDigitsAux_lt_ten j j x (List.mem_reverse.mp hx))
    (fun x hx => decDigitsAux_lt_ten k k x (List.mem_reverse.mp hx)) h
  exact decDigits_inj j k (List.reverse_inj.mp h2)

/-- Distinct positive counters give distinct candidate names. -/
theorem candName_inj (stem sfx : List Char) (name : String) (j k : Nat)
    (hj : j ≠ 0) (hk : k ≠ 0)
    (h : candName stem sfx name j = candName stem sfx name k) : j = k := by
  unfold candName at h
  rw [if_neg hj, if_neg hk] at h
  have hd : stem ++ ('_' :: decChars j ++ sfx) = stem ++ ('_' :: decChars k ++ sfx) :=
    congrArg String.data h
  have h3 := List.append_cancel_left hd
  have h4 : decChars j ++ sfx = decChars k ++ sfx := by injection h3
  exact decChars_inj j k (List.append_cancel_right h4)

/-- In any finite set of taken names some candidate with positive counter is
free: there are more candidates than taken names. -/
theorem exists_free_cand (taken : List String) (stem sfx : List Char) (name : String) :
    ∃ m, m < taken.length + 1 ∧ candName stem sfx name (1 + m) ∉ taken := by
  by_contra hcon
  push_neg at hcon
  have hinj : Function.Injective (fun m : Nat => candName stem sfx name (1 + m)) := by
    intro a b hab
    have := candName_inj stem sfx name (1 + a) (1 + b) (by omega) (by omega) hab
    omega
  have hsub : (Finset.range (taken.length + 1)).image
      (fun m => candName stem sfx name (1 + m)) ⊆ taken.toFinset := by
    intro s hs
    rw [Finset.mem_image] at hs
    obtain ⟨m, hm, rfl⟩ := hs
    exact List.mem_toFinset.mpr (hcon m (Finset.mem_range.mp hm))
  have hcard := Finset.card_le_card hsub
  rw [Finset.card_image_of_injective _ hinj, Finset.card_range] at hcard
  have hfin := taken.toFinset_card_le
  omega

/-- The `while target_file.exists()` search (lines 56-60), fuelled: starting
at counter `k`, return the first counter whose candidate is not taken. -/
def searchFresh (taken : List String) (stem sfx : List Char) (name : String) :
    Nat → Nat → Nat
  | 0, k => k
  | fuel + 1, k =>
    if candName stem sfx name k ∈ taken then
      searchFresh taken stem sfx name fuel (k + 1)
    else k

/-- If some candidate within the fuel window is free, the search returns a
counter whose candidate is free. -/
theorem searchFresh_free (taken : List String) (stem sfx : List Char) (name : String) :
    ∀ (fuel k : Nat), (∃ m, m < fuel ∧ candName stem sfx name (k + m) ∉ taken) →
      candName stem sfx name (searchFresh taken stem sfx name fuel k) ∉ taken := by
  intro fuel
  induction fuel with
  | zero =>
    rintro k ⟨m, hm, _⟩
    omega
  | succ fuel ih =>
    rintro k ⟨m, hm, hfree⟩
    by_cases hk : candName stem sfx name k ∈ taken
    · rw [show searchFresh taken stem sfx name (fuel + 1) k
          = (if candName stem sfx name k ∈ taken then
              searchFresh taken stem sfx name fuel (k + 1) else k) from rfl,
        if_pos hk]
      apply ih
      have hm0 : m ≠ 0 := by
        intro h0
        rw [h0, Nat.add_zero] at hfree
        exact hfree hk
      refine ⟨m - 1, by omega, ?_⟩
      rw [show k + 1 + (m - 1) = k + m by omega]
      exact hfree
    · rw [show searchFresh taken stem sfx name (fuel + 1) k
          = (if candName stem sfx name k ∈ taken then
              searchFresh taken stem sfx name fuel (k + 1) else k) from rfl,
        if_neg hk]
      exact hk

/-- The target name chosen by the conflict loop: the plain file name if it
does not exist in the destination folder, else the first
`stem_counter suffix` (counter = 1, 2, ...) that does not. -/
def target_name (taken : List String) (name : String) : String :=
  if name ∈ taken then
    candName (Pipeline.splitExtChars name.data).1 (Pipeline.splitExtChars name.data).2
      name
      (searchFresh taken (Pipeline.splitExtChars name.data).1
        (Pipeline.splitExtChars name.data).2 name (taken.length + 1) 1)
  else name

/-- The chosen target name never collides with a taken name. -/
theorem target_name_fresh (taken : List String) (name : String) :
    target_name taken name ∉ taken := by
  unfold target_name
  by_cases h : name ∈ taken
  · rw [if_pos h]
    apply searchFresh_free
    obtain ⟨m, hm, hfree⟩ := exists_free_cand taken
      (Pipeline.splitExtChars name.data).1 (Pipeline.splitExtChars name.data).2 name
    exact ⟨m, hm, hfree⟩
  · rw [if_neg h]
    exact h

/-- The names already present in the destination folder `base/crc`. -/
def takenNames (fs : List FFile) (crc : String) : List String :=
  (fs.filter (fun g => g.dir = [crc])).map (fun g => g.name)

/-- `shutil.move(source_file, target_file)` of one matched PNG (lines 49-67):
drop the source path, place the content at the freshly chosen target name in
the top-level CRC folder (a move onto an existing path would replace it; the
fresh choice guarantees the replacement filter removes nothing). -/
def move_one (fs : List FFile) (f : FFile) : List FFile :=
  let crc := f.dir.headD ""
  let tname := target_name (takenNames fs crc) f.name
  ⟨[crc], tname, f.content⟩ ::
    (fs.filter (fun g => ¬(g.dir = f.dir ∧ g.name = f.name))).filter
      (fun g => ¬(g.dir = [crc] ∧ g.name = tname))

/-- `flatten_directory(base_dir)` (`flatten_crc_structure.py`, lines 25-69):
move every PNG file lying in a duplicated `CRC/CRC/images` subtree into the
top-level CRC folder, in walk order. -/
def flatten_directory (fs : List FFile) : List FFile :=
  (fs.filter (fun f => isCRCImagesDir f.dir && Strutil.isPngName f.name)).foldl
    move_one fs

/-- A matched source directory has at least three components. -/
theorem isCRCImagesDir_length (dir : List String) (h : isCRCImagesDir dir = true) :
    3 ≤ dir.length := by
  match dir with
  | [] => simp [isCRCImagesDir] at h
  | [a] => simp [isCRCImagesDir] at h
  | [a, b] => simp [isCRCImagesDir] at h
  | a :: b :: c :: t =>
    simp only [List.length_cons]
    omega

/-- A file sitting directly in a top-level folder survives one move: it is
neither the (deep) source nor — by freshness of the target name — the
target. -/
theorem mem_move_one (st : List FFile) (p g : FFile)
    (hmatch : isCRCImagesDir p.dir = true) (hg : g ∈ st)
    (hlen : g.dir.length = 1) : g ∈ move_one st p := by
  unfold move_one
  apply List.mem_cons_of_mem
  apply List.mem_filter.mpr
  refine ⟨List.mem_filter.mpr ⟨hg, ?_⟩, ?_⟩
  · simp only [decide_eq_true_eq]
    rintro ⟨hdir, _⟩
    have h3 := isCRCImagesDir_length p.dir hmatch
    rw [← hdir] at h3
    omega
  · simp only [decide_eq_true_eq]
    rintro ⟨hdir, hname⟩
    have hginT : g.name ∈ takenNames st (p.dir.headD "") := by
      unfold takenNames
      exact List.mem_map.mpr ⟨g, List.mem_filter.mpr ⟨hg, by simp [hdir]⟩, rfl⟩
    rw [hname] at hginT
    exact target_name_fresh (takenNames st (p.dir.headD "")) p.name hginT

/-- A file sitting directly in a top-level folder survives the whole fold. -/
theorem mem_foldl_move (g : FFile) (hlen : g.dir.length = 1) :
    ∀ (P st : List FFile), (∀ p ∈ P, isCRCImagesDir p.dir = true) → g ∈ st →
      g ∈ P.foldl move_one st := by
  intro P
  induction P with
  | nil =>
    intro st _ hmem
    exact hmem
  | cons p P ih =>
    intro st hP hmem
    rw [List.foldl_cons]
    exact ih (move_one st p) (fun q hq => hP q (List.mem_cons_of_mem p hq))
      (mem_move_one st p g (hP p (List.mem_cons_self p P)) hmem hlen)

end Flatten

/-- Claim C10: flattening never overwrites an existing file: when a move
target name already exists in the destination folder, a numbered suffix
(_1, _2, ...) is appended until a non-existing target path is found before
the move — the chosen name differs from the name of every file already in
that folder — and consequently every file sitting directly in a top-level
(destination) folder before flattening still exists, with its content
unchanged, afterwards. -/
theorem c10_flatten_never_overwrites :
    (∀ (st : List Flatten.FFile) (crc name : String) (g : Flatten.FFile),
        g ∈ st → g.dir = [crc] →
        g.name ≠ Flatten.target_name (Flatten.takenNames st crc) name)
    ∧ (∀ (fs : List Flatten.FFile) (g : Flatten.FFile),
        g ∈ fs → g.dir.length = 1 → g ∈ Flatten.flatten_directory fs) := by
  constructor
  · intro st crc name g hg hdir hEq
    have hmem : g.name ∈ Flatten.takenNames st crc :=
      List.mem_map.mpr ⟨g, List.mem_filter.mpr ⟨hg, by simp [hdir]⟩, rfl⟩
    rw [hEq] at hmem
    exact Flatten.target_name_fresh _ name hmem
  · intro fs g hg hlen
    unfold Flatten.flatten_directory
    apply Flatten.mem_foldl_move g hlen _ fs ?_ hg
    intro p hp
    exact ((Bool.and_eq_true _ _).mp (List.mem_filter.mp hp).2).1

/-- A concrete tree for the C10 witness: the destination folder already holds
`a.png`, and a duplicated `CRC/CRC/images` subtree holds another `a.png`. -/
def fs10 : List Flatten.FFile :=
  [⟨["240911_CRC"], "a.png", 7⟩,
   ⟨["240911_CRC", "240911_CRC", "images"], "a.png", 9⟩]

/-- Witness for C10 at the concrete tree: the pre-existing destination file
survives flattening unchanged, and the chosen target name avoids it. -/
theorem c10_flatten_never_overwrites_witness :
    (⟨["240911_CRC"], "a.png", 7⟩ : Flatten.FFile) ∈ Flatten.flatten_directory fs10
    ∧ "a.png" ≠ Flatten.target_name (Flatten.takenNames fs10 "240911_CRC") "a.png" := by
  constructor
  · exact c10_flatten_never_overwrites.2 fs10 ⟨["240911_CRC"], "a.png", 7⟩
      (by decide) (by decide)
  · exact c10_flatten_never_overwrites.1 fs10 "240911_CRC" "a.png"
      ⟨["240911_CRC"], "a.png", 7⟩ (by decide) (by decide)
